import Mathlib

/-!
Verification development for the portapok card-presence stabilization engine.

The definitions below are a shallow embedding of the Python sources:

* `pn532_12_reader_server.py` — the 12-reader server.  Its core is
  `process_card_stability(reader_name, current_time)` together with the
  per-reader section of `poll_loop`.  Python floats (wall-clock seconds)
  are modelled as rationals; Python dicts keyed by reader name are
  modelled as functions from `String`; the insertion-ordered
  `unique_cards` dict is modelled as an association list kept in
  insertion order; Python `list.sort` (a stable sort) keyed by `uid`
  is modelled by `List.insertionSort`, which is also stable, and the
  two agree extensionally here.  Python truthiness of
  `current_hand["fold_start"]` (a float, falsy exactly when `0.0` or
  `None`) is modelled explicitly in `foldElapsed`.

* `pn532_spi_single_server.py` — the single-reader variant.  Its
  detected-card branch of `poll_loop` is modelled by
  `singleDetectTick`.
-/

/-- One timestamped detection, as appended to `CARD_DETECTION_HISTORY[reader]`
by `poll_loop` of the 12-reader server. -/
structure Detection where
  uid : String
  label : Option String
  timestamp : ℚ
deriving DecidableEq, Repr

/-- One entry of the `unique_cards` dict / `stable_cards` list built by
`process_card_stability`. -/
structure StableCard where
  uid : String
  label : Option String
  first_seen : ℚ
  last_seen : ℚ
deriving DecidableEq, Repr

/-- The per-reader `CURRENT_HANDS[reader]` dict of the 12-reader server. -/
structure Hand where
  cards : List StableCard
  last_stable : Option ℚ
  fold_start : Option ℚ
deriving DecidableEq, Repr

/-- The per-reader `STATE[reader]` dict of the 12-reader server — the
externally visible position-state projection. -/
structure PosState where
  uid : Option String
  label : Option String
  last_seen : Option ℚ
  hand_size : Nat
  hand_cards : List StableCard
deriving DecidableEq, Repr

/-- `CARD_STABILITY_TIME = 3.0` in both server variants. -/
def CARD_STABILITY_TIME : ℚ := 3

/-- `FOLD_DELAY_TIME = 5.0` in both server variants. -/
def FOLD_DELAY_TIME : ℚ := 5

/-- `MAX_HISTORY_SIZE = 50` in both server variants. -/
def MAX_HISTORY_SIZE : Nat := 50

/-- The sliding recency window of `process_card_stability`:
`[d for d in history if current_time - d["timestamp"] <= 10.0]`. -/
def recentDetections (history : List Detection) (now : ℚ) : List Detection :=
  history.filter (fun d => now - d.timestamp ≤ 10)

/-- One step of the `unique_cards` loop of `process_card_stability`: on the
first occurrence of a uid a fresh entry is inserted (carrying the label and
timestamp of that occurrence as both `first_seen` and `last_seen`);
on a repeated occurrence only `last_seen` is overwritten. -/
def insertDetection (acc : List StableCard) (d : Detection) : List StableCard :=
  if d.uid ∈ acc.map (fun c => c.uid) then
    acc.map (fun c => if c.uid = d.uid then { c with last_seen := d.timestamp } else c)
  else
    acc ++ [{ uid := d.uid, label := d.label, first_seen := d.timestamp,
              last_seen := d.timestamp }]

/-- The `unique_cards` dict of `process_card_stability`, in insertion order
(Python dicts preserve insertion order; `.values()` enumerates it). -/
def uniqueCards (dets : List Detection) : List StableCard :=
  dets.foldl insertDetection []

/-- Comparison used by `stable_cards.sort(key=lambda x: x["uid"])`. -/
def cardLE (a b : StableCard) : Prop := a.uid ≤ b.uid

instance : DecidableRel cardLE := fun a b => inferInstanceAs (Decidable (a.uid ≤ b.uid))

instance : IsTotal StableCard cardLE := ⟨fun a b => le_total a.uid b.uid⟩

instance : IsTrans StableCard cardLE := ⟨fun _ _ _ h1 h2 => le_trans h1 h2⟩

/-- The `stable_cards` list of `process_card_stability`: entries of
`unique_cards` whose first in-window sighting is at least
`CARD_STABILITY_TIME` old, sorted by uid (Python `list.sort` is stable;
so is `List.insertionSort`, and the keys are distinct anyway). -/
def stableCards (dets : List Detection) (now : ℚ) : List StableCard :=
  List.insertionSort cardLE
    ((uniqueCards dets).filter (fun c => CARD_STABILITY_TIME ≤ now - c.first_seen))

/-- Python truthiness test of
`current_hand["fold_start"] and (current_time - current_hand["fold_start"]) >= FOLD_DELAY_TIME`:
a fold timer of `None` — and also one of exactly `0.0`, which is falsy in
Python — never fires. -/
def foldElapsed (fold_start : Option ℚ) (now : ℚ) : Bool :=
  match fold_start with
  | none => false
  | some t => decide (t ≠ 0) && decide (FOLD_DELAY_TIME ≤ now - t)

/-- Shallow embedding of `process_card_stability(reader_name, current_time)`
of the 12-reader server.  The Python function reads and mutates
`CARD_DETECTION_HISTORY[reader]` (read only), `CURRENT_HANDS[reader]` and
`STATE[reader]`; here it maps the hand and the state to their new values.
Note that the empty-window branch returns before the `STATE` update, so the
projection is returned unchanged there. -/
def process_card_stability (history : List Detection) (hand : Hand) (st : PosState)
    (now : ℚ) : Hand × PosState :=
  let recent := recentDetections history now
  if recent = [] then
    if hand.cards ≠ [] ∧ hand.fold_start = none then
      ({ hand with fold_start := some now }, st)
    else if foldElapsed hand.fold_start now then
      if hand.cards ≠ [] then
        ({ cards := [], last_stable := none, fold_start := none }, st)
      else (hand, st)
    else (hand, st)
  else
    let stable := stableCards recent now
    let stableUids := stable.map (fun c => c.uid)
    let currentUids := hand.cards.map (fun c => c.uid)
    let hand1 : Hand :=
      if stableUids ≠ currentUids then
        { cards := stable, last_stable := some now, fold_start := none }
      else
        { hand with fold_start := none }
    let st1 : PosState :=
      match stable with
      | [] => { uid := none, label := none, last_seen := none, hand_size := 0,
                hand_cards := [] }
      | primary :: _ =>
        { uid := some primary.uid, label := primary.label, last_seen := some now,
          hand_size := stable.length, hand_cards := stable }
    (hand1, st1)

/-- The detection-recording section of the 12-reader `poll_loop`: append one
observation per detected uid, labelled through `UID_TO_LABEL.get`, then trim
the history to its last `MAX_HISTORY_SIZE` entries. -/
def record (history : List Detection) (uids : List String)
    (labelOf : String → Option String) (now : ℚ) : List Detection :=
  let h := history ++ uids.map (fun u => { uid := u, label := labelOf u, timestamp := now })
  if MAX_HISTORY_SIZE < h.length then h.drop (h.length - MAX_HISTORY_SIZE) else h

/-- The mutable state owned by one position of the 12-reader server. -/
structure PosSim where
  history : List Detection
  hand : Hand
  st : PosState
deriving DecidableEq, Repr

/-- One iteration of the 12-reader `poll_loop` for one reader: record the
detections of this tick, then run `process_card_stability`. -/
def tick (labelOf : String → Option String) (s : PosSim) (uids : List String)
    (now : ℚ) : PosSim :=
  let h := record s.history uids labelOf now
  let r := process_card_stability h s.hand s.st now
  { history := h, hand := r.1, st := r.2 }

/-- Iterated poll ticks, each given its detected uids and its time. -/
def runTicks (labelOf : String → Option String) (s : PosSim)
    (steps : List (List String × ℚ)) : PosSim :=
  steps.foldl (fun s p => tick labelOf s p.1 p.2) s

/-- The initial per-position state of the 12-reader server. -/
def initSim : PosSim :=
  { history := []
    hand := { cards := [], last_stable := none, fold_start := none }
    st := { uid := none, label := none, last_seen := none, hand_size := 0,
            hand_cards := [] } }

/-- The mutable module globals of the 12-reader server touched by the poll
loop: the three reader-keyed dicts `CARD_DETECTION_HISTORY`, `CURRENT_HANDS`
and `STATE`, plus the single scalar global `LAST_DETECTED_UID` that is
shared by all positions. -/
structure Global where
  histories : String → List Detection
  hands : String → Hand
  states : String → PosState
  last_detected_uid : Option String

/-- One iteration of the 12-reader `poll_loop` body for the named reader:
it rewrites `CARD_DETECTION_HISTORY[name]`, `CURRENT_HANDS[name]` and
`STATE[name]`, and in addition assigns the shared module global
`LAST_DETECTED_UID` once per detected uid inside the per-detection loop
(so it ends at the last detected uid of the tick, and is untouched on a
tick with no detections). -/
def pollOne (g : Global) (name : String) (uids : List String)
    (labelOf : String → Option String) (now : ℚ) : Global :=
  let h := record (g.histories name) uids labelOf now
  let last := uids.foldl (fun _ u => some u) g.last_detected_uid
  let r := process_card_stability h (g.hands name) (g.states name) now
  { histories := Function.update g.histories name h
    hands := Function.update g.hands name r.1
    states := Function.update g.states name r.2
    last_detected_uid := last }

/-- One entry of `CURRENT_HAND["cards"]` in the single-reader variant
`pn532_spi_single_server.py` (no `last_seen` field there). -/
structure SingleCard where
  uid : String
  label : Option String
  first_seen : ℚ
deriving DecidableEq, Repr

/-- The `CURRENT_HAND` dict of the single-reader variant. -/
structure SingleHand where
  cards : List SingleCard
  last_stable : Option ℚ
  fold_start : Option ℚ
deriving DecidableEq, Repr

/-- The detected-card branch of the single-reader `poll_loop`
(dual-card detection logic): a uid not already in the hand is appended
immediately, with `last_stable` set to the current time and the fold timer
cleared; a uid already present only refreshes `last_stable` and clears the
fold timer. -/
def singleDetectTick (hand : SingleHand) (u : String) (label : Option String)
    (now : ℚ) : SingleHand :=
  if hand.cards = [] ∨ u ∉ hand.cards.map (fun c => c.uid) then
    { cards := hand.cards ++ [{ uid := u, label := label, first_seen := now }]
      last_stable := some now
      fold_start := none }
  else
    { hand with last_stable := some now, fold_start := none }

/-- In-window occurrences of one identifier, in history order. -/
def occs (u : String) (l : List Detection) : List Detection :=
  l.filter (fun d => d.uid = u)

theorem head?_append_left {α : Type} (l l2 : List α) (a : α) (h : l.head? = some a) :
    (l ++ l2).head? = some a := by
  cases l with
  | nil => simp at h
  | cons x t => simpa using h

theorem getLast?_append_singleton {α : Type} (l : List α) (a : α) :
    (l ++ [a]).getLast? = some a := by
  rw [List.getLast?_append_of_ne_nil _ (by simp)]
  rfl

theorem uniqueCards_append (l : List Detection) (d : Detection) :
    uniqueCards (l ++ [d]) = insertDetection (uniqueCards l) d := by
  simp [uniqueCards, List.foldl_append]

theorem insertDetection_uids (acc : List StableCard) (d : Detection) :
    (insertDetection acc d).map (fun c => c.uid) =
      if d.uid ∈ acc.map (fun c => c.uid) then acc.map (fun c => c.uid)
      else acc.map (fun c => c.uid) ++ [d.uid] := by
  unfold insertDetection
  by_cases h : d.uid ∈ acc.map (fun c => c.uid)
  · rw [if_pos h, if_pos h, List.map_map]
    refine List.map_congr_left (fun c _ => ?_)
    by_cases hc : c.uid = d.uid <;> simp [hc]
  · rw [if_neg h, if_neg h]
    simp

theorem mem_foldl_insert_uids (u : String) (l : List Detection) (acc : List StableCard) :
    (u ∈ ((l.foldl insertDetection acc).map fun c => c.uid)) ↔
      u ∈ (acc.map fun c => c.uid) ∨ u ∈ l.map (fun d => d.uid) := by
  induction l generalizing acc with
  | nil => simp
  | cons d t ih =>
    rw [List.foldl_cons, ih, insertDetection_uids]
    by_cases h : d.uid ∈ acc.map (fun c => c.uid)
    · rw [if_pos h]
      simp only [List.map_cons, List.mem_cons]
      constructor
      · tauto
      · rintro (hu | hu | hu)
        · exact Or.inl hu
        · exact Or.inl (hu ▸ h)
        · tauto
    · rw [if_neg h]
      simp only [List.mem_append, List.mem_singleton, List.map_cons, List.mem_cons]
      tauto

theorem mem_uniqueCards_uids (u : String) (l : List Detection) :
    (u ∈ ((uniqueCards l).map fun c => c.uid)) ↔ u ∈ l.map (fun d => d.uid) := by
  simpa [uniqueCards] using mem_foldl_insert_uids u l []

theorem uniqueCards_uids_nodup (l : List Detection) :
    ((uniqueCards l).map fun c => c.uid).Nodup := by
  suffices h : ∀ acc : List StableCard, ((acc.map fun c => c.uid).Nodup) →
      ((l.foldl insertDetection acc).map fun c => c.uid).Nodup by
    exact h [] (by simp)
  induction l with
  | nil => intro acc hacc; simpa using hacc
  | cons d t ih =>
    intro acc hacc
    rw [List.foldl_cons]
    refine ih _ ?_
    rw [insertDetection_uids]
    by_cases h : d.uid ∈ acc.map (fun c => c.uid)
    · rwa [if_pos h]
    · rw [if_neg h]
      simp only [List.nodup_append, List.nodup_cons, List.nodup_nil]
      exact ⟨hacc, by simp, by simpa using h⟩

theorem uniqueCards_entry (l : List Detection) :
    ∀ c ∈ uniqueCards l, ∃ d0 dl : Detection,
      (occs c.uid l).head? = some d0 ∧ (occs c.uid l).getLast? = some dl ∧
      c.label = d0.label ∧ c.first_seen = d0.timestamp ∧ c.last_seen = dl.timestamp := by
  induction l using List.reverseRecOn with
  | nil => simp [uniqueCards]
  | append_singleton t d ih =>
    intro c hc
    rw [uniqueCards_append] at hc
    unfold insertDetection at hc
    by_cases h : d.uid ∈ (uniqueCards t).map (fun c => c.uid)
    · rw [if_pos h] at hc
      obtain ⟨c0, hc0, hfc⟩ := List.mem_map.mp hc
      obtain ⟨d0, dl, h1, h2, h3, h4, h5⟩ := ih c0 hc0
      by_cases he : c0.uid = d.uid
      · rw [if_pos he] at hfc
        have hocc : occs c.uid (t ++ [d]) = occs c0.uid t ++ [d] := by
          subst hfc
          simp [occs, List.filter_append, he]
        refine ⟨d0, d, ?_, ?_, ?_, ?_, ?_⟩
        · rw [hocc]; exact head?_append_left _ _ _ h1
        · rw [hocc]; exact getLast?_append_singleton _ _
        · subst hfc; exact h3
        · subst hfc; exact h4
        · subst hfc; rfl
      · rw [if_neg he] at hfc
        subst hfc
        have hocc : occs c0.uid (t ++ [d]) = occs c0.uid t := by
          have : ¬ (d.uid = c0.uid) := fun hx => he hx.symm
          simp [occs, List.filter_append, this]
        rw [hocc]
        exact ⟨d0, dl, h1, h2, h3, h4, h5⟩
    · rw [if_neg h] at hc
      rcases List.mem_append.mp hc with hc1 | hc2
      · have hne : c.uid ≠ d.uid := by
          intro hx
          exact h (hx ▸ (List.mem_map.mpr ⟨c, hc1, rfl⟩))
        have hocc : occs c.uid (t ++ [d]) = occs c.uid t := by
          have : ¬ (d.uid = c.uid) := fun hx => hne hx.symm
          simp [occs, List.filter_append, this]
        rw [hocc]
        exact ih c hc1
      · have hcd : c = ⟨d.uid, d.label, d.timestamp, d.timestamp⟩ := by
          simpa using hc2
        have hnot : d.uid ∉ t.map (fun x => x.uid) := by
          intro hx
          exact h ((mem_uniqueCards_uids d.uid t).mpr hx)
        have hone : occs d.uid t = [] := by
          rw [occs, List.filter_eq_nil_iff]
          intro a ha
          simp only [decide_eq_true_eq]
          intro hax
          exact hnot (List.mem_map.mpr ⟨a, ha, hax⟩)
        have hocc : occs c.uid (t ++ [d]) = [d] := by
          rw [hcd]
          simp only [occs, List.filter_append] at hone ⊢
          simp [hone]
        rw [hocc, hcd]
        exact ⟨d, d, rfl, rfl, rfl, rfl, rfl⟩

theorem stableCards_uids_nodup (dets : List Detection) (now : ℚ) :
    ((stableCards dets now).map fun c => c.uid).Nodup := by
  have hperm : (stableCards dets now).Perm
      ((uniqueCards dets).filter (fun c => CARD_STABILITY_TIME ≤ now - c.first_seen)) :=
    List.perm_insertionSort _ _
  have h2 : ((((uniqueCards dets).filter
      (fun c => CARD_STABILITY_TIME ≤ now - c.first_seen)).map fun c => c.uid)).Nodup := by
    have hsub := (List.filter_sublist
      (p := fun c => decide (CARD_STABILITY_TIME ≤ now - c.first_seen)) (uniqueCards dets))
    exact (hsub.map _).nodup (uniqueCards_uids_nodup dets)
  exact ((hperm.map _).nodup_iff).mpr h2

theorem stableCards_sorted_lt (dets : List Detection) (now : ℚ) :
    (stableCards dets now).Pairwise (fun a b => a.uid < b.uid) := by
  have hs : (stableCards dets now).Pairwise cardLE := List.sorted_insertionSort cardLE _
  have hne : (stableCards dets now).Pairwise (fun a b => a.uid ≠ b.uid) :=
    List.pairwise_map.mp (stableCards_uids_nodup dets now)
  exact (hs.and hne).imp (fun h => lt_of_le_of_ne h.1 h.2)

theorem mem_stableCards_uids (dets : List Detection) (now : ℚ) (u : String) :
    (u ∈ (stableCards dets now).map fun c => c.uid) ↔
      ∃ c ∈ uniqueCards dets, c.uid = u ∧ CARD_STABILITY_TIME ≤ now - c.first_seen := by
  rw [List.mem_map]
  constructor
  · rintro ⟨c, hc, rfl⟩
    have hm := (List.perm_insertionSort cardLE _).mem_iff.mp hc
    rw [List.mem_filter] at hm
    exact ⟨c, hm.1, rfl, by simpa using hm.2⟩
  · rintro ⟨c, hc, rfl, hst⟩
    refine ⟨c, ?_, rfl⟩
    rw [stableCards, (List.perm_insertionSort cardLE _).mem_iff, List.mem_filter]
    exact ⟨hc, by simpa using hst⟩

theorem process_hand_uids (history : List Detection) (hand : Hand) (st : PosState) (now : ℚ)
    (h : ¬ recentDetections history now = []) :
    ((process_card_stability history hand st now).1.cards.map fun c => c.uid) =
      ((stableCards (recentDetections history now) now).map fun c => c.uid) := by
  unfold process_card_stability
  rw [if_neg h]
  simp only
  split_ifs with hif
  · rfl
  · rw [not_not] at hif
    simpa using hif.symm

theorem process_hand_st_irrel (history : List Detection) (hand : Hand)
    (st st2 : PosState) (now : ℚ) :
    (process_card_stability history hand st now).1 =
      (process_card_stability history hand st2 now).1 := by
  by_cases h : recentDetections history now = []
  · simp only [process_card_stability, h, if_true, eq_self_iff_true]
    split_ifs <;> rfl
  · simp only [process_card_stability, h, if_false]

theorem process_empty_eq (history : List Detection) (hand : Hand) (st : PosState) (now : ℚ)
    (hr : recentDetections history now = []) :
    process_card_stability history hand st now =
      (if hand.cards ≠ [] ∧ hand.fold_start = none then
        ({ hand with fold_start := some now }, st)
      else if foldElapsed hand.fold_start now then
        (if hand.cards ≠ [] then
          ({ cards := [], last_stable := none, fold_start := none }, st)
        else (hand, st))
      else (hand, st)) := by
  unfold process_card_stability
  rw [if_pos hr]

theorem process_nonempty_hand_eq (history : List Detection) (hand : Hand) (st : PosState)
    (now : ℚ) (hne : ¬ recentDetections history now = []) :
    (process_card_stability history hand st now).1 =
      (if (stableCards (recentDetections history now) now).map (fun c => c.uid) ≠
          hand.cards.map (fun c => c.uid) then
        { cards := stableCards (recentDetections history now) now,
          last_stable := some now, fold_start := none }
      else { hand with fold_start := none }) := by
  unfold process_card_stability
  rw [if_neg hne]

theorem process_nonempty_fold_none (history : List Detection) (hand : Hand) (st : PosState)
    (now : ℚ) (hne : ¬ recentDetections history now = []) :
    (process_card_stability history hand st now).1.fold_start = none := by
  rw [process_nonempty_hand_eq history hand st now hne]
  split_ifs <;> rfl

theorem hand_update_fold_none (h : Hand) (hf : h.fold_start = none) :
    ({ h with fold_start := none } : Hand) = h := by
  cases h
  simp_all

theorem mem_of_head?_eq {α : Type} {l : List α} {a : α} (h : l.head? = some a) : a ∈ l := by
  cases l with
  | nil => simp at h
  | cons b t =>
    simp only [List.head?_cons, Option.some.injEq] at h
    rw [← h]
    exact List.mem_cons_self b t

theorem mem_of_getLast?_eq {α : Type} {l : List α} {a : α} (h : l.getLast? = some a) :
    a ∈ l := by
  induction l with
  | nil => simp at h
  | cons b t ih =>
    cases t with
    | nil =>
      simp only [List.getLast?_singleton, Option.some.injEq] at h
      rw [← h]
      exact List.mem_cons_self b []
    | cons c ts =>
      rw [List.getLast?_cons_cons] at h
      exact List.mem_cons_of_mem b (ih h)

theorem head?_pairwise {α : Type} {R : α → α → Prop} {l : List α} {a : α}
    (hp : l.Pairwise R) (hh : l.head? = some a) : ∀ x ∈ l, x = a ∨ R a x := by
  cases l with
  | nil => simp at hh
  | cons b t =>
    simp only [List.head?_cons, Option.some.injEq] at hh
    subst hh
    rw [List.pairwise_cons] at hp
    intro x hx
    rcases List.mem_cons.mp hx with h1 | h2
    · exact Or.inl h1
    · exact Or.inr (hp.1 x h2)

theorem getLast?_pairwise {α : Type} {R : α → α → Prop} :
    ∀ {l : List α} {z : α}, l.Pairwise R → l.getLast? = some z → ∀ x ∈ l, x = z ∨ R x z := by
  intro l
  induction l with
  | nil => intro z _ hz; simp at hz
  | cons b t ih =>
    intro z hp hz x hx
    cases t with
    | nil =>
      simp only [List.getLast?_singleton, Option.some.injEq] at hz
      subst hz
      simp only [List.mem_singleton] at hx
      exact Or.inl hx
    | cons c ts =>
      rw [List.getLast?_cons_cons] at hz
      rw [List.pairwise_cons] at hp
      rcases List.mem_cons.mp hx with h1 | h2
      · subst h1
        exact Or.inr (hp.1 z (mem_of_getLast?_eq hz))
      · exact ih hp.2 hz x h2

/-- C1: Debounce-in with inclusive boundary.  For a position whose detection
history consists of one identifier observed from time 0 (its first
observation has timestamp 0 and all observations are at nonnegative times),
a recompute at `now < 3.0` leaves the identifier out of the stable hand, and
a recompute at `now >= 3.0` (with the time-0 observation still inside the
10-second window, `now <= 10`) puts it in: promotion happens exactly when
`now - firstSeenAt >= CARD_STABILITY_TIME`. -/
theorem C1_debounce_in (d0 : Detection) (rest : List Detection) (hand : Hand)
    (st : PosState) (now : ℚ)
    (hu : ∀ d ∈ (d0 :: rest), d.uid = d0.uid) (ht0 : d0.timestamp = 0)
    (hnn : ∀ d ∈ (d0 :: rest), 0 ≤ d.timestamp) (hnow : now ≤ 10) :
    (now < CARD_STABILITY_TIME →
      d0.uid ∉ ((process_card_stability (d0 :: rest) hand st now).1.cards.map
        fun c => c.uid)) ∧
    (CARD_STABILITY_TIME ≤ now →
      d0.uid ∈ ((process_card_stability (d0 :: rest) hand st now).1.cards.map
        fun c => c.uid)) := by
  have hrec : recentDetections (d0 :: rest) now = d0 :: rest := by
    rw [recentDetections, List.filter_eq_self]
    intro d hd
    have h1 := hnn d hd
    simp only [decide_eq_true_eq]
    linarith
  have hne : ¬ recentDetections (d0 :: rest) now = [] := by
    rw [hrec]; simp
  have huids := process_hand_uids (d0 :: rest) hand st now hne
  rw [hrec] at huids
  have hocc : occs d0.uid (d0 :: rest) = d0 :: rest := by
    rw [occs, List.filter_eq_self]
    intro d hd
    simpa using hu d hd
  have hfs : ∀ c ∈ uniqueCards (d0 :: rest), c.uid = d0.uid ∧ c.first_seen = 0 := by
    intro c hc
    have hcu : c.uid = d0.uid := by
      have hm : c.uid ∈ (uniqueCards (d0 :: rest)).map (fun c => c.uid) :=
        List.mem_map.mpr ⟨c, hc, rfl⟩
      have h2 := (mem_uniqueCards_uids c.uid (d0 :: rest)).mp hm
      obtain ⟨d, hd, hdu⟩ := List.mem_map.mp h2
      rw [← hdu]
      exact hu d hd
    obtain ⟨dx, dl, h1, h2, h3, h4, h5⟩ := uniqueCards_entry (d0 :: rest) c hc
    rw [hcu, hocc] at h1
    have hdx : dx = d0 := by
      simp only [List.head?_cons, Option.some.injEq] at h1
      exact h1.symm
    exact ⟨hcu, by rw [h4, hdx, ht0]⟩
  constructor
  · intro hlt hmem
    rw [huids, mem_stableCards_uids] at hmem
    obtain ⟨c, hc, hcu, hcs⟩ := hmem
    rw [(hfs c hc).2, sub_zero] at hcs
    exact absurd hcs (not_le.mpr hlt)
  · intro hge
    rw [huids, mem_stableCards_uids]
    have hm : d0.uid ∈ (uniqueCards (d0 :: rest)).map (fun c => c.uid) := by
      rw [mem_uniqueCards_uids]
      exact List.mem_map.mpr ⟨d0, by simp, rfl⟩
    obtain ⟨c, hc, hcu⟩ := List.mem_map.mp hm
    refine ⟨c, hc, hcu, ?_⟩
    rw [(hfs c hc).2, sub_zero]
    exact hge

/-- Witness for C1 at a concrete input: identifier 04AA observed at times 0
and 1, recomputed at the inclusive boundary now = 3, is in the stable hand. -/
theorem C1_debounce_in_witness :
    ("04AA" : String) ∈ ((process_card_stability
      [⟨"04AA", some "AS", 0⟩, ⟨"04AA", some "AS", 1⟩]
      ⟨[], none, none⟩ ⟨none, none, none, 0, []⟩ 3).1.cards.map fun c => c.uid) :=
  (C1_debounce_in ⟨"04AA", some "AS", 0⟩ [⟨"04AA", some "AS", 1⟩]
    ⟨[], none, none⟩ ⟨none, none, none, 0, []⟩ 3
    (by decide)
    rfl
    (by norm_num)
    (by norm_num)).2 (by norm_num [CARD_STABILITY_TIME])

/-- C2: Debounce-out (fold).  With an empty 10-second window and a non-empty
hand: if the fold timer is unset, the recompute sets it to `now` and changes
nothing else; while `now - foldStartedAt < 5.0` the hand is completely
unchanged; and at a recompute with `now - foldStartedAt >= 5.0` (the timer
holding a positive time, as it always does since it was set to a recompute
time) the hand is cleared entirely: cards emptied and both `last_stable` and
`fold_start` reset to unset. -/
theorem C2_debounce_out_fold (history : List Detection) (hand : Hand) (st : PosState)
    (now t : ℚ)
    (hr : recentDetections history now = [])
    (hc : hand.cards ≠ []) :
    (hand.fold_start = none →
      (process_card_stability history hand st now).1 =
        { hand with fold_start := some now }) ∧
    (hand.fold_start = some t → now - t < FOLD_DELAY_TIME →
      (process_card_stability history hand st now).1 = hand) ∧
    (hand.fold_start = some t → 0 < t → FOLD_DELAY_TIME ≤ now - t →
      (process_card_stability history hand st now).1 =
        { cards := [], last_stable := none, fold_start := none }) := by
  refine ⟨?_, ?_, ?_⟩
  · intro hf
    rw [process_empty_eq history hand st now hr, if_pos ⟨hc, hf⟩]
  · intro hf hlt
    rw [process_empty_eq history hand st now hr]
    have h1 : ¬ (hand.cards ≠ [] ∧ hand.fold_start = none) := by
      simp [hf]
    rw [if_neg h1]
    have h2 : foldElapsed hand.fold_start now = false := by
      rw [hf]
      simp only [foldElapsed, Bool.and_eq_false_iff, decide_eq_false_iff_not, not_le]
      exact Or.inr hlt
    rw [h2]
    simp
  · intro hf ht hge
    rw [process_empty_eq history hand st now hr]
    have h1 : ¬ (hand.cards ≠ [] ∧ hand.fold_start = none) := by
      simp [hf]
    rw [if_neg h1]
    have h2 : foldElapsed hand.fold_start now = true := by
      rw [hf]
      simp only [foldElapsed, Bool.and_eq_true, decide_eq_true_eq]
      exact ⟨ne_of_gt ht, hge⟩
    rw [h2]
    simp only [if_true]
    rw [if_pos hc]

/-- Witness for C2 at a concrete input: empty history, hand holding one card
with the fold timer set at t = 14, recomputed at now = 19 (elapsed exactly
5.0): the hand is cleared. -/
theorem C2_debounce_out_fold_witness :
    (process_card_stability [] ⟨[⟨"04AA", some "AS", 0, 3⟩], some 3, some 14⟩
      ⟨none, none, none, 0, []⟩ 19).1 =
      ({ cards := [], last_stable := none, fold_start := none } : Hand) :=
  (C2_debounce_out_fold [] ⟨[⟨"04AA", some "AS", 0, 3⟩], some 3, some 14⟩
    ⟨none, none, none, 0, []⟩ 19 14 rfl (by simp)).2.2 rfl (by norm_num)
    (by norm_num [FOLD_DELAY_TIME])

/-- C6: Idempotence of recompute.  For every hand state, detection history
and time, running `process_card_stability` a second time at the same `now`
with the unchanged history (from the hand produced by the first run) yields
exactly the hand of the first run; this holds for every intermediate
projection value, hence in particular for the reachable ones. -/
theorem C6_recompute_idempotent (history : List Detection) (hand : Hand)
    (st st2 : PosState) (now : ℚ) :
    (process_card_stability history
      (process_card_stability history hand st now).1 st2 now).1 =
      (process_card_stability history hand st now).1 := by
  by_cases hr : recentDetections history now = []
  · by_cases h1 : hand.cards ≠ [] ∧ hand.fold_start = none
    · have e1 : (process_card_stability history hand st now).1 =
          { hand with fold_start := some now } := by
        rw [process_empty_eq history hand st now hr, if_pos h1]
      rw [e1, process_empty_eq history _ st2 now hr]
      have hcond : ¬ (({ hand with fold_start := some now } : Hand).cards ≠ [] ∧
          ({ hand with fold_start := some now } : Hand).fold_start = none) := by
        simp
      rw [if_neg hcond]
      have hfe : foldElapsed ({ hand with fold_start := some now } : Hand).fold_start now
          = false := by
        simp only [foldElapsed, Bool.and_eq_false_iff, decide_eq_false_iff_not, not_le]
        right
        norm_num [FOLD_DELAY_TIME]
      rw [hfe]
      simp
    · by_cases h2 : foldElapsed hand.fold_start now = true
      · by_cases h3 : hand.cards ≠ []
        · have e1 : (process_card_stability history hand st now).1 =
              { cards := [], last_stable := none, fold_start := none } := by
            rw [process_empty_eq history hand st now hr, if_neg h1, if_pos h2, if_pos h3]
          rw [e1, process_empty_eq history _ st2 now hr]
          simp [foldElapsed]
        · have e1 : (process_card_stability history hand st now).1 = hand := by
            rw [process_empty_eq history hand st now hr, if_neg h1, if_pos h2, if_neg h3]
          rw [e1, process_empty_eq history hand st2 now hr, if_neg h1, if_pos h2, if_neg h3]
      · have e1 : (process_card_stability history hand st now).1 = hand := by
          rw [process_empty_eq history hand st now hr, if_neg h1, if_neg h2]
        rw [e1, process_empty_eq history hand st2 now hr, if_neg h1, if_neg h2]
  · have hfold := process_nonempty_fold_none history hand st now hr
    have huids := process_hand_uids history hand st now hr
    rw [process_nonempty_hand_eq history _ st2 now hr]
    rw [if_neg (by rw [huids]; simp)]
    exact hand_update_fold_none _ hfold

theorem foldl_overwrite_last {α : Type} :
    ∀ (l : List α) (u : α) (init : Option α), l.getLast? = some u →
      l.foldl (fun _ x => some x) init = some u := by
  intro l
  induction l with
  | nil => intro u init h; simp at h
  | cons a t ih =>
    intro u init h
    cases t with
    | nil =>
      simp only [List.getLast?_singleton, Option.some.injEq] at h
      rw [h]
      rfl
    | cons b ts =>
      rw [List.getLast?_cons_cons] at h
      rw [List.foldl_cons]
      exact ih u (some a) h

/-- C8 counterexample: processing position p1 with a detection of 04AA
mutates the module global `LAST_DETECTED_UID` (from unset to 04AA).  That
global is not the history, hand or projection of p1, and it is written by
the processing of every position, so the operation does not mutate only the
named position, and the positions do share mutable state. -/
theorem C8_shared_uid_counterexample :
    (pollOne ⟨fun _ => [], fun _ => ⟨[], none, none⟩,
        fun _ => ⟨none, none, none, 0, []⟩, none⟩
      "p1" ["04AA"] (fun _ => none) 0).last_detected_uid = some "04AA" ∧
    (some "04AA" : Option String) ≠ (none : Option String) := by
  exact ⟨rfl, by simp⟩

/-- C8 amended: one `poll_loop` body iteration for the named reader mutates
only the entry of that reader in the history, hand and state maps plus the
single shared module global `LAST_DETECTED_UID`: for every other position
the history, hand and projection are unchanged, and the shared global is
unchanged on a tick with no detections and ends at the last detected uid
otherwise. -/
theorem C8_per_position_frame_amended (g : Global) (name q : String)
    (uids : List String) (labelOf : String → Option String) (now : ℚ)
    (hq : q ≠ name) :
    (pollOne g name uids labelOf now).histories q = g.histories q ∧
    (pollOne g name uids labelOf now).hands q = g.hands q ∧
    (pollOne g name uids labelOf now).states q = g.states q ∧
    (uids = [] →
      (pollOne g name uids labelOf now).last_detected_uid = g.last_detected_uid) ∧
    (∀ u, uids.getLast? = some u →
      (pollOne g name uids labelOf now).last_detected_uid = some u) := by
  refine ⟨?_, ?_, ?_, ?_, ?_⟩
  · simp [pollOne, Function.update_noteq hq]
  · simp [pollOne, Function.update_noteq hq]
  · simp [pollOne, Function.update_noteq hq]
  · intro h
    subst h
    rfl
  · intro u hu
    show uids.foldl (fun _ x => some x) g.last_detected_uid = some u
    exact foldl_overwrite_last uids u g.last_detected_uid hu

/-- Witness for the amended C8 at a concrete input: polling reader p1 with a
detection of 04AA leaves reader p2 untouched and sets the shared global to
04AA. -/
theorem C8_per_position_frame_amended_witness :
    (pollOne ⟨fun _ => [], fun _ => ⟨[], none, none⟩,
        fun _ => ⟨none, none, none, 0, []⟩, none⟩
      "p1" ["04AA"] (fun _ => none) 0).histories "p2" = [] ∧
    (pollOne ⟨fun _ => [], fun _ => ⟨[], none, none⟩,
        fun _ => ⟨none, none, none, 0, []⟩, none⟩
      "p1" ["04AA"] (fun _ => none) 0).hands "p2" = ⟨[], none, none⟩ ∧
    (pollOne ⟨fun _ => [], fun _ => ⟨[], none, none⟩,
        fun _ => ⟨none, none, none, 0, []⟩, none⟩
      "p1" ["04AA"] (fun _ => none) 0).states "p2" = ⟨none, none, none, 0, []⟩ ∧
    (pollOne ⟨fun _ => [], fun _ => ⟨[], none, none⟩,
        fun _ => ⟨none, none, none, 0, []⟩, none⟩
      "p1" ["04AA"] (fun _ => none) 0).last_detected_uid = some "04AA" := by
  have h := C8_per_position_frame_amended
    ⟨fun _ => [], fun _ => ⟨[], none, none⟩, fun _ => ⟨none, none, none, 0, []⟩, none⟩
    "p1" "p2" ["04AA"] (fun _ => none) 0 (by decide)
  exact ⟨h.1, h.2.1, h.2.2.1, h.2.2.2.2 "04AA" rfl⟩

/-- C10: In the single-reader variant, a detected identifier that is not yet
in `CURRENT_HAND["cards"]` is appended on that same tick (no stability
delay), with `last_stable` set to the current time and `fold_start`
cleared, so it is immediately visible in the current hand. -/
theorem C10_single_reader_instant_add (hand : SingleHand) (u : String)
    (label : Option String) (now : ℚ)
    (h : u ∉ hand.cards.map (fun c => c.uid)) :
    singleDetectTick hand u label now =
      { cards := hand.cards ++ [{ uid := u, label := label, first_seen := now }],
        last_stable := some now, fold_start := none } ∧
    u ∈ (singleDetectTick hand u label now).cards.map (fun c => c.uid) := by
  have e : singleDetectTick hand u label now =
      { cards := hand.cards ++ [{ uid := u, label := label, first_seen := now }],
        last_stable := some now, fold_start := none } := by
    rw [singleDetectTick, if_pos (Or.inr h)]
  refine ⟨e, ?_⟩
  rw [e]
  simp

/-- Witness for C10 at a concrete input: identifier 04AA first detected at
now = 5 while a fold countdown is pending is appended immediately and the
countdown is cancelled. -/
theorem C10_single_reader_instant_add_witness :
    singleDetectTick ⟨[], none, some 2⟩ "04AA" (some "AS") 5 =
      ({ cards := [⟨"04AA", some "AS", 5⟩], last_stable := some 5,
         fold_start := none } : SingleHand) ∧
    ("04AA" : String) ∈ ((singleDetectTick ⟨[], none, some 2⟩ "04AA" (some "AS") 5).cards.map
      (fun c => c.uid)) :=
  C10_single_reader_instant_add ⟨[], none, some 2⟩ "04AA" (some "AS") 5 (by simp)

set_option maxHeartbeats 1000000 in
/-- C3 counterexample: identifier 04AA observed at every tick from t = 0 to
t = 3.5 and absent afterwards.  At the first tick after absence begins
(t = 4) the claim requires the fold timer to be set; in fact the 10-second
window still holds the old observations, so the recompute clears the fold
timer (it stays `none`) and the hand stays stable. -/
theorem C3_fold_start_counterexample :
    (runTicks (fun u => if u = "04AA" then some "AS" else none) initSim
      [(["04AA"], 0), (["04AA"], 1), (["04AA"], 2), (["04AA"], 3),
       (["04AA"], 7/2), ([], 4)]).hand.fold_start = none ∧
    ((runTicks (fun u => if u = "04AA" then some "AS" else none) initSim
      [(["04AA"], 0), (["04AA"], 1), (["04AA"], 2), (["04AA"], 3),
       (["04AA"], 7/2), ([], 4)]).hand.cards.map fun c => c.uid) = ["04AA"] := by
  constructor <;>
    norm_num [runTicks, tick, record, process_card_stability, recentDetections,
      stableCards, uniqueCards, insertDetection, foldElapsed, MAX_HISTORY_SIZE,
      CARD_STABILITY_TIME, FOLD_DELAY_TIME, initSim, List.insertionSort,
      List.orderedInsert, List.filter, List.foldl_cons, List.foldl_nil,
      Option.some_ne_none]

set_option maxHeartbeats 4000000 in
/-- C3 amended: in the scenario of the claim (04AA observed every tick from
t = 0 to t = 3.5, absent afterwards) the hand is stable at t = 3.0, but the
fold timer is not set at the first tick after absence begins: it stays unset
while the 10-second window still holds an old observation (so at t = 4 and
still at t = 13), is set at the first tick whose window is empty (t = 14 >
3.5 + 10), the hand is still unchanged at t = 18.5 (4.5 s into the
countdown), and the hand is cleared at the first tick with
now - foldStartedAt >= 5.0 (t = 19). -/
theorem C3_fold_timing_amended :
    ((runTicks (fun u => if u = "04AA" then some "AS" else none) initSim
      [(["04AA"], 0), (["04AA"], 1), (["04AA"], 2),
       (["04AA"], 3)]).hand.cards.map fun c => c.uid) = ["04AA"] ∧
    (runTicks (fun u => if u = "04AA" then some "AS" else none) initSim
      [(["04AA"], 0), (["04AA"], 1), (["04AA"], 2), (["04AA"], 3),
       (["04AA"], 7/2), ([], 4), ([], 13)]).hand.fold_start = none ∧
    (runTicks (fun u => if u = "04AA" then some "AS" else none) initSim
      [(["04AA"], 0), (["04AA"], 1), (["04AA"], 2), (["04AA"], 3),
       (["04AA"], 7/2), ([], 4), ([], 13), ([], 14)]).hand.fold_start = some 14 ∧
    ((runTicks (fun u => if u = "04AA" then some "AS" else none) initSim
      [(["04AA"], 0), (["04AA"], 1), (["04AA"], 2), (["04AA"], 3),
       (["04AA"], 7/2), ([], 4), ([], 13), ([], 14),
       ([], 37/2)]).hand.cards.map fun c => c.uid) = ["04AA"] ∧
    (runTicks (fun u => if u = "04AA" then some "AS" else none) initSim
      [(["04AA"], 0), (["04AA"], 1), (["04AA"], 2), (["04AA"], 3),
       (["04AA"], 7/2), ([], 4), ([], 13), ([], 14), ([], 37/2),
       ([], 19)]).hand.cards = [] := by
  refine ⟨?_, ?_, ?_, ?_, ?_⟩ <;>
    norm_num [runTicks, tick, record, process_card_stability, recentDetections,
      stableCards, uniqueCards, insertDetection, foldElapsed, MAX_HISTORY_SIZE,
      CARD_STABILITY_TIME, FOLD_DELAY_TIME, initSim, List.insertionSort,
      List.orderedInsert, List.filter, List.foldl_cons, List.foldl_nil,
      Option.some_ne_none]

/-- C4 counterexample: hand holding 04AA (observed at t = 0..3), fold timer
set at t = 14, and 04AA re-detected at t = 18, i.e. 4.0 s into the 5.0 s
countdown.  The recompute at t = 18 does cancel the countdown, but the old
observations are outside the 10-second window, so the reappearing identifier
has firstSeenAt = 18 and is not stable: the hand is cleared instead of the
prior card remaining. -/
theorem C4_resume_counterexample :
    (process_card_stability
      [⟨"04AA", some "AS", 0⟩, ⟨"04AA", some "AS", 3⟩, ⟨"04AA", some "AS", 18⟩]
      ⟨[⟨"04AA", some "AS", 0, 3⟩], some 3, some 14⟩
      ⟨some "04AA", some "AS", some 3, 1, [⟨"04AA", some "AS", 0, 3⟩]⟩
      18).1.fold_start = none ∧
    (process_card_stability
      [⟨"04AA", some "AS", 0⟩, ⟨"04AA", some "AS", 3⟩, ⟨"04AA", some "AS", 18⟩]
      ⟨[⟨"04AA", some "AS", 0, 3⟩], some 3, some 14⟩
      ⟨some "04AA", some "AS", some 3, 1, [⟨"04AA", some "AS", 0, 3⟩]⟩
      18).1.cards = [] := by
  constructor <;>
    norm_num [process_card_stability, recentDetections, stableCards, uniqueCards,
      insertDetection, foldElapsed, CARD_STABILITY_TIME, FOLD_DELAY_TIME,
      List.insertionSort, List.orderedInsert, List.filter, List.foldl_cons,
      List.foldl_nil, Option.some_ne_none]

/-- C4 amended: a detection arriving during an active fold countdown does
cancel the countdown (any non-empty window resets `fold_start` to unset),
but the prior card does not resume instantly: since the countdown could only
be running because every earlier observation had left the 10-second window,
the reappearing identifier restarts with a fresh `firstSeenAt`, and whenever
every in-window observation is younger than `CARD_STABILITY_TIME` the
recompute clears the hand; the identifier must accrue a fresh 3.0 s of
presence before re-promotion. -/
theorem C4_fold_cancellation_amended (history : List Detection) (hand : Hand)
    (st : PosState) (now : ℚ) (hne : ¬ recentDetections history now = []) :
    (process_card_stability history hand st now).1.fold_start = none ∧
    ((∀ d ∈ recentDetections history now, now - d.timestamp < CARD_STABILITY_TIME) →
      (process_card_stability history hand st now).1.cards = []) := by
  refine ⟨process_nonempty_fold_none history hand st now hne, ?_⟩
  intro hfresh
  have hstable : stableCards (recentDetections history now) now = [] := by
    rw [stableCards]
    have hfil : ((uniqueCards (recentDetections history now)).filter
        (fun c => CARD_STABILITY_TIME ≤ now - c.first_seen)) = [] := by
      rw [List.filter_eq_nil_iff]
      intro c hc
      obtain ⟨d0, dl, h1, h2, h3, h4, h5⟩ := uniqueCards_entry _ c hc
      have hd0 : d0 ∈ occs c.uid (recentDetections history now) := mem_of_head?_eq h1
      have hd0r : d0 ∈ recentDetections history now := List.mem_of_mem_filter hd0
      have hlt := hfresh d0 hd0r
      simp only [decide_eq_true_eq, not_le]
      rw [h4]
      linarith
    rw [hfil]
    rfl
  rw [process_nonempty_hand_eq history hand st now hne, hstable]
  split_ifs with hif
  · rfl
  · rw [not_not] at hif
    have hnil : hand.cards = [] := by
      have := hif.symm
      simpa using this
    simp [hnil]

/-- Witness for the amended C4 at a concrete input: sole in-window detection
of 04AA at t = 18 recomputed at now = 18 leaves no fold timer and an empty
hand. -/
theorem C4_fold_cancellation_amended_witness :
    (process_card_stability [⟨"04AA", some "AS", 18⟩]
      ⟨[⟨"04AA", some "AS", 0, 3⟩], some 3, some 14⟩
      ⟨some "04AA", some "AS", some 3, 1, [⟨"04AA", some "AS", 0, 3⟩]⟩
      18).1.fold_start = none ∧
    (process_card_stability [⟨"04AA", some "AS", 18⟩]
      ⟨[⟨"04AA", some "AS", 0, 3⟩], some 3, some 14⟩
      ⟨some "04AA", some "AS", some 3, 1, [⟨"04AA", some "AS", 0, 3⟩]⟩
      18).1.cards = [] := by
  have h := C4_fold_cancellation_amended [⟨"04AA", some "AS", 18⟩]
    ⟨[⟨"04AA", some "AS", 0, 3⟩], some 3, some 14⟩
    ⟨some "04AA", some "AS", some 3, 1, [⟨"04AA", some "AS", 0, 3⟩]⟩ 18
    (by norm_num [recentDetections, List.filter])
  exact ⟨h.1, h.2 (by norm_num [recentDetections, List.filter, CARD_STABILITY_TIME])⟩

set_option maxHeartbeats 1000000 in
/-- C7 counterexample: 04AA observed at t = 0..3 and never again.  The hand
is folded (cleared) by t = 19, yet at t = 100 — long after every poll has
yielded no tags — the externally visible projection still shows uid 04AA
with hand size 1: the empty-window branch returns before the state update,
so the projection retains the stale card indefinitely. -/
theorem C7_stale_projection_counterexample :
    (runTicks (fun u => if u = "04AA" then some "AS" else none) initSim
      [(["04AA"], 0), (["04AA"], 1), (["04AA"], 2), (["04AA"], 3),
       ([], 14), ([], 19), ([], 100)]).hand.cards = [] ∧
    (runTicks (fun u => if u = "04AA" then some "AS" else none) initSim
      [(["04AA"], 0), (["04AA"], 1), (["04AA"], 2), (["04AA"], 3),
       ([], 14), ([], 19), ([], 100)]).st.uid = some "04AA" ∧
    (runTicks (fun u => if u = "04AA" then some "AS" else none) initSim
      [(["04AA"], 0), (["04AA"], 1), (["04AA"], 2), (["04AA"], 3),
       ([], 14), ([], 19), ([], 100)]).st.hand_size = 1 := by
  refine ⟨?_, ?_, ?_⟩ <;>
    norm_num [runTicks, tick, record, process_card_stability, recentDetections,
      stableCards, uniqueCards, insertDetection, foldElapsed, MAX_HISTORY_SIZE,
      CARD_STABILITY_TIME, FOLD_DELAY_TIME, initSim, List.insertionSort,
      List.orderedInsert, List.filter, List.foldl_cons, List.foldl_nil,
      Option.some_ne_none]

/-- C7 amended: every recompute whose 10-second window is empty returns
before the state update, leaving the externally visible projection exactly
as it was.  Hence under persistent absence the hand itself is cleared by the
fold, but the projection permanently retains the last value written by a
non-empty-window recompute — possibly a stale card — and never becomes
empty. -/
theorem C7_projection_frozen (history : List Detection) (hand : Hand)
    (st : PosState) (now : ℚ) (hr : recentDetections history now = []) :
    (process_card_stability history hand st now).2 = st := by
  rw [process_empty_eq history hand st now hr]
  split_ifs <;> rfl

/-- Witness for the amended C7 at a concrete input: an empty-window recompute
at t = 100 returns the stale projection showing 04AA unchanged. -/
theorem C7_projection_frozen_witness :
    (process_card_stability [] ⟨[], none, none⟩
      ⟨some "04AA", some "AS", some 3, 1, [⟨"04AA", some "AS", 0, 3⟩]⟩ 100).2 =
      ⟨some "04AA", some "AS", some 3, 1, [⟨"04AA", some "AS", 0, 3⟩]⟩ :=
  C7_projection_frozen [] ⟨[], none, none⟩
    ⟨some "04AA", some "AS", some 3, 1, [⟨"04AA", some "AS", 0, 3⟩]⟩ 100 rfl

/-- C9 counterexample: two in-window observations of the same identifier at
t = 0 (label X) and t = 1 (label Y), deduplicated at now = 2.  The dedup
keeps the label of the first (earliest) observation, X — not the label of
the most recent observation, Y, as the claim states. -/
theorem C9_label_counterexample :
    uniqueCards (recentDetections [⟨"AA", some "X", 0⟩, ⟨"AA", some "Y", 1⟩] 2) =
      [⟨"AA", some "X", 0, 1⟩] ∧ (some "X" : Option String) ≠ some "Y" := by
  constructor
  · norm_num [recentDetections, uniqueCards, insertDetection, List.filter,
      List.foldl_cons, List.foldl_nil]
  · simp

/-- C9 amended: for a chronologically ordered detection history and an
identifier with at least one in-window observation, the deduplication step
produces an entry whose `first_seen` is the earliest in-window observation
timestamp of that identifier, whose `last_seen` is the latest, and whose
label is carried from the earliest (first) in-window observation — not from
the most recent one. -/
theorem C9_dedup_amended (history : List Detection) (now : ℚ) (u : String)
    (hsort : history.Pairwise (fun a b => a.timestamp ≤ b.timestamp))
    (hocc : u ∈ (recentDetections history now).map (fun d => d.uid)) :
    ∃ c ∈ uniqueCards (recentDetections history now),
      c.uid = u ∧
      (c.first_seen ∈ ((occs u (recentDetections history now)).map
          (fun d => d.timestamp)) ∧
        ∀ s ∈ ((occs u (recentDetections history now)).map (fun d => d.timestamp)),
          c.first_seen ≤ s) ∧
      (c.last_seen ∈ ((occs u (recentDetections history now)).map
          (fun d => d.timestamp)) ∧
        ∀ s ∈ ((occs u (recentDetections history now)).map (fun d => d.timestamp)),
          s ≤ c.last_seen) ∧
      (∃ d0 ∈ occs u (recentDetections history now),
        d0.timestamp = c.first_seen ∧ d0.label = c.label) := by
  have hmem : u ∈ (uniqueCards (recentDetections history now)).map (fun c => c.uid) :=
    (mem_uniqueCards_uids u _).mpr hocc
  obtain ⟨c, hc, hcu⟩ := List.mem_map.mp hmem
  obtain ⟨d0, dl, h1, h2, h3, h4, h5⟩ := uniqueCards_entry _ c hc
  rw [hcu] at h1 h2
  have hsr : (recentDetections history now).Pairwise
      (fun a b => a.timestamp ≤ b.timestamp) :=
    List.Pairwise.sublist (List.filter_sublist _) hsort
  have hso : (occs u (recentDetections history now)).Pairwise
      (fun a b => a.timestamp ≤ b.timestamp) :=
    List.Pairwise.sublist (List.filter_sublist _) hsr
  have hd0 : d0 ∈ occs u (recentDetections history now) := mem_of_head?_eq h1
  have hdl : dl ∈ occs u (recentDetections history now) := mem_of_getLast?_eq h2
  refine ⟨c, hc, hcu, ⟨?_, ?_⟩, ⟨?_, ?_⟩, ⟨d0, hd0, h4.symm, h3.symm⟩⟩
  · exact List.mem_map.mpr ⟨d0, hd0, h4.symm⟩
  · intro s hs
    obtain ⟨dd, hdd, hddts⟩ := List.mem_map.mp hs
    rcases head?_pairwise hso h1 dd hdd with he | hle
    · rw [h4, ← hddts, he]
    · rw [h4, ← hddts]
      exact hle
  · exact List.mem_map.mpr ⟨dl, hdl, h5.symm⟩
  · intro s hs
    obtain ⟨dd, hdd, hddts⟩ := List.mem_map.mp hs
    rcases getLast?_pairwise hso h2 dd hdd with he | hle
    · rw [h5, ← hddts, he]
    · rw [h5, ← hddts]
      exact hle

/-- Witness for the amended C9 at a concrete input: observations of AA at
t = 0 (label X) and t = 1 (label Y), deduplicated at now = 2. -/
theorem C9_dedup_amended_witness :
    ∃ c ∈ uniqueCards (recentDetections [⟨"AA", some "X", 0⟩, ⟨"AA", some "Y", 1⟩] 2),
      c.uid = "AA" ∧
      (c.first_seen ∈ ((occs "AA" (recentDetections
          [⟨"AA", some "X", 0⟩, ⟨"AA", some "Y", 1⟩] 2)).map (fun d => d.timestamp)) ∧
        ∀ s ∈ ((occs "AA" (recentDetections
            [⟨"AA", some "X", 0⟩, ⟨"AA", some "Y", 1⟩] 2)).map (fun d => d.timestamp)),
          c.first_seen ≤ s) ∧
      (c.last_seen ∈ ((occs "AA" (recentDetections
          [⟨"AA", some "X", 0⟩, ⟨"AA", some "Y", 1⟩] 2)).map (fun d => d.timestamp)) ∧
        ∀ s ∈ ((occs "AA" (recentDetections
            [⟨"AA", some "X", 0⟩, ⟨"AA", some "Y", 1⟩] 2)).map (fun d => d.timestamp)),
          s ≤ c.last_seen) ∧
      (∃ d0 ∈ occs "AA" (recentDetections
          [⟨"AA", some "X", 0⟩, ⟨"AA", some "Y", 1⟩] 2),
        d0.timestamp = c.first_seen ∧ d0.label = c.label) :=
  C9_dedup_amended [⟨"AA", some "X", 0⟩, ⟨"AA", some "Y", 1⟩] 2 "AA"
    (by norm_num [List.pairwise_cons])
    (by norm_num [recentDetections, List.filter])

/-- C5: Hand canonical-order invariant.  A recompute preserves the invariant
that `hand.cards` is strictly ascending by identifier (hence duplicate
free); in the non-empty-window branch the produced list is the sorted,
deduplicated stable set irrespective of arrival order, and any identifier
whose first in-window observation is at least `CARD_STABILITY_TIME` old —
in particular each of two simultaneously stable distinct identifiers —
appears in the resulting hand. -/
theorem C5_canonical_order (history : List Detection) (hand : Hand) (st : PosState)
    (now : ℚ)
    (hsorted : hand.cards.Pairwise (fun a b => a.uid < b.uid)) :
    ((process_card_stability history hand st now).1.cards.Pairwise
      (fun a b => a.uid < b.uid)) ∧
    (((process_card_stability history hand st now).1.cards.map fun c => c.uid).Nodup) ∧
    (∀ u d0, (occs u (recentDetections history now)).head? = some d0 →
      CARD_STABILITY_TIME ≤ now - d0.timestamp →
      u ∈ ((process_card_stability history hand st now).1.cards.map fun c => c.uid)) := by
  have hpair : (process_card_stability history hand st now).1.cards.Pairwise
      (fun a b => a.uid < b.uid) := by
    by_cases hr : recentDetections history now = []
    · rw [process_empty_eq history hand st now hr]
      split_ifs <;> simp_all
    · rw [process_nonempty_hand_eq history hand st now hr]
      split_ifs
      · exact stableCards_sorted_lt _ _
      · exact hsorted
  refine ⟨hpair, ?_, ?_⟩
  · exact List.pairwise_map.mpr (hpair.imp (fun h => ne_of_lt h))
  · intro u d0 hh hst
    have hd0 : d0 ∈ occs u (recentDetections history now) := mem_of_head?_eq hh
    have hd0f := List.mem_filter.mp hd0
    have hd0u : d0.uid = u := by simpa using hd0f.2
    have hd0r : d0 ∈ recentDetections history now := hd0f.1
    have hne : ¬ recentDetections history now = [] := by
      intro hx
      rw [hx] at hd0r
      simp at hd0r
    rw [process_hand_uids history hand st now hne, mem_stableCards_uids]
    have humem : u ∈ (uniqueCards (recentDetections history now)).map (fun c => c.uid) := by
      rw [mem_uniqueCards_uids]
      exact List.mem_map.mpr ⟨d0, hd0r, hd0u⟩
    obtain ⟨c, hc, hcu⟩ := List.mem_map.mp humem
    obtain ⟨dx, dl, h1, h2, h3, h4, h5⟩ := uniqueCards_entry _ c hc
    rw [hcu] at h1
    have hdx : dx = d0 := by
      rw [hh] at h1
      simpa using h1.symm
    refine ⟨c, hc, hcu, ?_⟩
    rw [h4, hdx]
    exact hst

/-- Witness for C5 at a concrete input: identifiers ZZ and AA both observed
from t = 0 (ZZ arriving first in the history), recomputed at now = 4: the
hand is strictly ascending, duplicate free, and contains both. -/
theorem C5_canonical_order_witness :
    ((process_card_stability
      [⟨"ZZ", none, 0⟩, ⟨"AA", none, 0⟩, ⟨"ZZ", none, 4⟩, ⟨"AA", none, 4⟩]
      ⟨[], none, none⟩ ⟨none, none, none, 0, []⟩ 4).1.cards.Pairwise
        (fun a b => a.uid < b.uid)) ∧
    ("AA" : String) ∈ ((process_card_stability
      [⟨"ZZ", none, 0⟩, ⟨"AA", none, 0⟩, ⟨"ZZ", none, 4⟩, ⟨"AA", none, 4⟩]
      ⟨[], none, none⟩ ⟨none, none, none, 0, []⟩ 4).1.cards.map fun c => c.uid) ∧
    ("ZZ" : String) ∈ ((process_card_stability
      [⟨"ZZ", none, 0⟩, ⟨"AA", none, 0⟩, ⟨"ZZ", none, 4⟩, ⟨"AA", none, 4⟩]
      ⟨[], none, none⟩ ⟨none, none, none, 0, []⟩ 4).1.cards.map fun c => c.uid) :=
  ⟨(C5_canonical_order
      [⟨"ZZ", none, 0⟩, ⟨"AA", none, 0⟩, ⟨"ZZ", none, 4⟩, ⟨"AA", none, 4⟩]
      ⟨[], none, none⟩ ⟨none, none, none, 0, []⟩ 4 (by simp)).1,
   (C5_canonical_order
      [⟨"ZZ", none, 0⟩, ⟨"AA", none, 0⟩, ⟨"ZZ", none, 4⟩, ⟨"AA", none, 4⟩]
      ⟨[], none, none⟩ ⟨none, none, none, 0, []⟩ 4 (by simp)).2.2 "AA" ⟨"AA", none, 0⟩
      (by norm_num [occs, recentDetections, List.filter]
          decide)
      (by norm_num [CARD_STABILITY_TIME]),
   (C5_canonical_order
      [⟨"ZZ", none, 0⟩, ⟨"AA", none, 0⟩, ⟨"ZZ", none, 4⟩, ⟨"AA", none, 4⟩]
      ⟨[], none, none⟩ ⟨none, none, none, 0, []⟩ 4 (by simp)).2.2 "ZZ" ⟨"ZZ", none, 0⟩
      (by norm_num [occs, recentDetections, List.filter])
      (by norm_num [CARD_STABILITY_TIME])⟩
